import Mathlib

/-!
Verification development for the jarvizbot expense-tracker backend.

The program is a chat bot (`bot.py`) over a relational storage layer
(`db_utils.py`).  This file gives a shallow embedding of the parts the
claims concern: the storage operations (`insert_tx`, `get_transactions`,
`get_summary`, `get_export_data`), the interactive `/add` conversation
state machine, the `/quick` free-text command parser, and the CSV export
formatter.  Machine-level semantics of the Python runtime used by the
code (`str.strip`, `re` pattern matching, `float`, `datetime.strptime`,
and the fragment of `dateutil.parser.parse` the program exercises) are
modelled explicitly below; amounts are modelled as exact rationals.
-/

namespace Jarviz

/-! ## Character classes (ASCII fragment of Python's `str`/`re` classes) -/

/-- Python regex `\s` / `str.strip` whitespace, ASCII fragment:
space, tab, newline, carriage return, form feed, vertical tab. -/
def isPySpace (c : Char) : Bool :=
  c = ' ' || c = '\t' || c = '\n' || c = '\x0d' || c = '\x0c' || c = '\x0b'

/-- Python regex `\d`, ASCII fragment: the decimal digits. -/
def isPyDigit (c : Char) : Bool :=
  '0' ≤ c && c ≤ '9'

/-- Python regex `\w`, ASCII fragment: letters, digits and underscore. -/
def isPyWord (c : Char) : Bool :=
  ('a' ≤ c && c ≤ 'z') || ('A' ≤ c && c ≤ 'Z') || isPyDigit c || c = '_'

/-- ASCII letters (used by the date-text tokenizer). -/
def isPyAlpha (c : Char) : Bool :=
  ('a' ≤ c && c ≤ 'z') || ('A' ≤ c && c ≤ 'Z')

/-! ## Python string primitives -/

/-- Python `str.strip()` on a character list: drop whitespace from both ends. -/
def pyStripL (l : List Char) : List Char :=
  ((l.dropWhile isPySpace).reverse.dropWhile isPySpace).reverse

/-- Python `str.strip()`. -/
def pyStrip (s : String) : String :=
  String.mk (pyStripL s.data)

/-- One step of Python `str.replace(old, new)`: if `old` is a prefix of `l`,
consume it; used by `replaceAllL`. `none` when `old` does not start here. -/
def dropPrefixL : List Char → List Char → Option (List Char)
  | [], l => some l
  | _ :: _, [] => none
  | o :: os, c :: cs => if o = c then dropPrefixL os cs else none

/-- Python `str.replace(old, new)` (all non-overlapping occurrences, left
to right) on character lists, by structural recursion on a fuel that
bounds the length of the scanned list.  When a nonempty `old` matches,
the scanned list shrinks by at least one character, so the fuel never
runs out when it starts at the list's length. -/
def replaceAllAux (old new : List Char) : Nat → List Char → List Char
  | _, [] => []
  | 0, l => l
  | fuel + 1, c :: cs =>
    match dropPrefixL old (c :: cs) with
    | some rest =>
      if old.isEmpty then c :: cs
      else new ++ replaceAllAux old new fuel rest
    | none => c :: replaceAllAux old new fuel cs

/-- Python `str.replace(old, new)` on character lists (`old` nonempty at
every use in this program). -/
def replaceAllL (old new l : List Char) : List Char :=
  replaceAllAux old new l.length l

/-- Python `str.replace(old, new)`. -/
def pyReplace (s old new : String) : String :=
  String.mk (replaceAllL old.data new.data s.data)

/-- Python `str.replace(old, new, 1)` (first occurrence only). -/
def replaceFirstL (old new : List Char) : List Char → List Char
  | [] => []
  | c :: cs =>
    match dropPrefixL old (c :: cs) with
    | some rest => new ++ rest
    | none => c :: replaceFirstL old new cs

/-- Python `str.replace(old, new, 1)`. -/
def pyReplaceFirst (s old new : String) : String :=
  String.mk (replaceFirstL old.data new.data s.data)

/-- Numeric value of a digit run (most significant first). -/
def natOfDigits (l : List Char) : Nat :=
  l.foldl (fun acc c => 10 * acc + (c.toNat - '0'.toNat)) 0

/-! ## Python `float()` on sanitized text

`float(s)` for strings made of digits, periods and minus signs (the only
characters that survive the program's sanitizers): an optional single
leading sign, then `digits [. digits]` or `. digits`; anything else —
including the empty string, several signs, several periods or trailing
junk — raises `ValueError` (`none` here).  Values are exact rationals. -/

def pyFloatCore (l : List Char) : Option ℚ :=
  let (neg, l1) :=
    match l with
    | '-' :: rest => (true, rest)
    | '+' :: rest => (false, rest)
    | _ => (false, l)
  let intPart := l1.takeWhile isPyDigit
  let l2 := l1.drop intPart.length
  match l2 with
  | [] =>
    if intPart.isEmpty then none
    else some (mkRat (if neg then -(natOfDigits intPart : Int) else natOfDigits intPart) 1)
  | '.' :: l3 =>
    let fracPart := l3.takeWhile isPyDigit
    let l4 := l3.drop fracPart.length
    if l4.isEmpty && !(intPart.isEmpty && fracPart.isEmpty) then
      let m := natOfDigits (intPart ++ fracPart)
      some (mkRat (if neg then -(m : Int) else m) (10 ^ fracPart.length))
    else none
  | _ => none

/-- Python `float(s)` restricted to the sanitized alphabet (see above). -/
def pyFloat (s : String) : Option ℚ :=
  pyFloatCore s.data

/-! ## Calendar dates -/

/-- A calendar date (`datetime.date`). -/
@[ext]
structure Date where
  year : Nat
  month : Nat
  day : Nat
deriving DecidableEq

/-- Gregorian leap-year rule (`calendar.isleap`). -/
def isLeap (y : Nat) : Bool :=
  y % 4 = 0 && (y % 100 ≠ 0 || y % 400 = 0)

/-- Days in a month of a given year. -/
def daysInMonth (y m : Nat) : Nat :=
  if m = 2 then (if isLeap y then 29 else 28)
  else if m = 4 || m = 6 || m = 9 || m = 11 then 30
  else 31

/-- Chronological order on dates (year, then month, then day). -/
def Date.leb (a b : Date) : Bool :=
  a.year < b.year ||
    (a.year = b.year && (a.month < b.month ||
      (a.month = b.month && a.day ≤ b.day)))

/-- Strict chronological order on dates. -/
def Date.ltb (a b : Date) : Bool :=
  a.year < b.year ||
    (a.year = b.year && (a.month < b.month ||
      (a.month = b.month && a.day < b.day)))

/-- The previous calendar day (`today - timedelta(days=1)`). -/
def predDate (d : Date) : Date :=
  if 1 < d.day then ⟨d.year, d.month, d.day - 1⟩
  else if 1 < d.month then ⟨d.year, d.month - 1, daysInMonth d.year (d.month - 1)⟩
  else ⟨d.year - 1, 12, 31⟩

/-- Decimal rendering of a natural number padded to at least `w` digits
(`%0*d`). -/
def padNat (w n : Nat) : String :=
  let r := Nat.repr n
  String.mk (List.replicate (w - r.length) '0') ++ r

/-- `date.isoformat()` / `str(date)`: `YYYY-MM-DD`, zero padded. -/
def showDate (d : Date) : String :=
  padNat 4 d.year ++ "-" ++ padNat 2 d.month ++ "-" ++ padNat 2 d.day

/-! ## `datetime.strptime(s, "%Y-%m-%d")`

CPython's `_strptime` compiles the format to the regex
`(?P<Y>\d\d\d\d)-(?P<m>1[0-2]|0[1-9]|[1-9])-(?P<d>3[01]|[12]\d|0[1-9]|[1-9])`,
requires the whole string to be consumed ("unconverted data remains"
otherwise), and then constructs `datetime(y, m, d)`, which validates the
day against the month length and rejects year 0.  Alternations are
tried left to right with backtracking, which the candidate lists below
reproduce. -/

/-- Exactly four digits (`%Y`). -/
def parse4Digits : List Char → Option (Nat × List Char)
  | a :: b :: c :: d :: rest =>
    if isPyDigit a && isPyDigit b && isPyDigit c && isPyDigit d then
      some (natOfDigits [a, b, c, d], rest)
    else none
  | _ => none

/-- Month candidates in the order of the alternation `1[0-2]|0[1-9]|[1-9]`. -/
def monthCandidates (l : List Char) : List (Nat × List Char) :=
  (match l with
   | a :: b :: rest =>
     if a = '1' && ('0' ≤ b && b ≤ '2') then [(natOfDigits [a, b], rest)]
     else if a = '0' && ('1' ≤ b && b ≤ '9') then [(natOfDigits [a, b], rest)]
     else []
   | _ => []) ++
  (match l with
   | a :: rest => if '1' ≤ a && a ≤ '9' then [(natOfDigits [a], rest)] else []
   | _ => [])

/-- Day candidates in the order of the alternation `3[01]|[12]\d|0[1-9]|[1-9]`. -/
def dayCandidates (l : List Char) : List (Nat × List Char) :=
  (match l with
   | a :: b :: rest =>
     if a = '3' && ('0' ≤ b && b ≤ '1') then [(natOfDigits [a, b], rest)]
     else if ('1' ≤ a && a ≤ '2') && isPyDigit b then [(natOfDigits [a, b], rest)]
     else if a = '0' && ('1' ≤ b && b ≤ '9') then [(natOfDigits [a, b], rest)]
     else []
   | _ => []) ++
  (match l with
   | a :: rest => if '1' ≤ a && a ≤ '9' then [(natOfDigits [a], rest)] else []
   | _ => [])

/-- First candidate continuation that succeeds (regex backtracking). -/
def firstSome {α β : Type} (l : List α) (f : α → Option β) : Option β :=
  match l with
  | [] => none
  | a :: rest =>
    match f a with
    | some b => some b
    | none => firstSome rest f

/-- `datetime.strptime(s, "%Y-%m-%d").date()`; `none` models `ValueError`. -/
def pyStrptimeDate (s : String) : Option Date :=
  match parse4Digits s.data with
  | none => none
  | some (y, r1) =>
    match r1 with
    | '-' :: r2 =>
      firstSome (monthCandidates r2) fun (m, r3) =>
        match r3 with
        | '-' :: r4 =>
          firstSome (dayCandidates r4) fun (d, r5) =>
            if r5.isEmpty && 1 ≤ y && d ≤ daysInMonth y m then
              some ⟨y, m, d⟩
            else none
        | _ => none
    | _ => none

/-! ## `dateutil.parser.parse(text, fuzzy=True)`

Model of the fragment of dateutil's fuzzy parser this program exercises.
The lexer splits the text into maximal digit runs and maximal letter runs
(other characters separate tokens); with `fuzzy=True` unrecognized word
tokens are skipped.  dateutil has no notion of relative words — both
"yesterday" and "tomorrow" are just skipped — and when no numeric or
month-name token is present at all it raises `ParserError`
("String does not contain a date"), modelled by `none`.  The fragment
modelled positively is the numeric pattern `YYYY m d` (e.g. ISO
`2025-01-15`) validated against the calendar; other token shapes are
outside the fragment the program's claims exercise and map to `none`. -/

inductive DTok where
  | num (digits : List Char)
  | word (letters : List Char)
deriving DecidableEq

/-- Lexer fragment: maximal digit runs and letter runs; anything else is a
separator.  Structural recursion on a fuel bounding the list length (the
scanned list shrinks by at least one character per emitted token or
separator). -/
def dtokensAux : Nat → List Char → List DTok
  | _, [] => []
  | 0, _ => []
  | fuel + 1, c :: cs =>
    if isPyDigit c then
      let run := cs.takeWhile isPyDigit
      .num (c :: run) :: dtokensAux fuel (cs.drop run.length)
    else if isPyAlpha c then
      let run := cs.takeWhile isPyAlpha
      .word (c :: run) :: dtokensAux fuel (cs.drop run.length)
    else
      dtokensAux fuel cs

/-- Tokens of a piece of free text. -/
def dtokens (l : List Char) : List DTok :=
  dtokensAux l.length l

/-- Lower-cased month names known to dateutil's default `parserinfo`. -/
def monthNames : List (List Char) :=
  ["jan", "january", "feb", "february", "mar", "march", "apr", "april",
   "may", "jun", "june", "jul", "july", "aug", "august", "sep", "sept",
   "september", "oct", "october", "nov", "november", "dec",
   "december"].map String.data

/-- Lower-cased weekday names known to dateutil's default `parserinfo`. -/
def weekdayNames : List (List Char) :=
  ["mon", "monday", "tue", "tues", "tuesday", "wed", "wednesday", "thu",
   "thurs", "thursday", "fri", "friday", "sat", "saturday", "sun",
   "sunday"].map String.data

/-- Case-insensitive recognition of a month or weekday word. -/
def isDateWord (l : List Char) : Bool :=
  let low := l.map Char.toLower
  monthNames.contains low || weekdayNames.contains low

/-- A valid calendar date, else `none` (`ValueError` from `datetime`). -/
def mkValidDate (y m d : Nat) : Option Date :=
  if 1 ≤ y && 1 ≤ m && m ≤ 12 && 1 ≤ d && d ≤ daysInMonth y m then
    some ⟨y, m, d⟩
  else none

/-- Fragment of `dateutil.parser.parse(text, fuzzy=True)`; `none` models a
raised `ParserError`/`ValueError`. -/
def dateutilParseFuzzy (s : String) : Option Date :=
  let toks := dtokens s.data
  let nums := toks.filterMap fun t =>
    match t with
    | .num ds => some ds
    | .word _ => none
  let dateWords := toks.any fun t =>
    match t with
    | .num _ => false
    | .word w => isDateWord w
  match nums, dateWords with
  | [], false => none
  | [y, m, d], false =>
    if y.length = 4 then mkValidDate (natOfDigits y) (natOfDigits m) (natOfDigits d)
    else none
  | _, _ => none

/-! ## The transactions table (`db_utils.py`)

A database state is the sequence of rows of the `transactions` table.
Columns unused by every flow (merchant, payment_method, …) are omitted;
`tags` keeps the raw argument string (always `NULL`/`None` in every call
site of this program — its JSON normalization decides no claim). -/

structure Tx where
  id : Nat
  user_id : Nat
  category : String
  amount : ℚ
  currency : String
  date : Date
  description : Option String
  tags : Option String
deriving DecidableEq

/-- The table contents, in insertion order. -/
abbrev Db := List Tx

/-- `SELECT COALESCE(MAX(id), 0) FROM transactions`. -/
def maxId (db : Db) : Nat :=
  (db.map Tx.id).foldr max 0

/-- `insert_tx` (`db_utils.py`): parses `date_str` as `%Y-%m-%d`, falling
back to the current date (`today`) when parsing fails; computes the next
id as `COALESCE(MAX(id), 0) + 1` over the whole table; inserts the row
and returns the assigned id.  There is no failure path. -/
def insert_tx (db : Db) (user_id : Nat) (category : String) (amount : ℚ)
    (date_str : String) (description : Option String) (tags : Option String)
    (currency : String) (today : Date) : Nat × Db :=
  let date_obj := (pyStrptimeDate date_str).getD today
  let next_id := maxId db + 1
  (next_id,
   db ++ [{ id := next_id, user_id := user_id, category := category,
            amount := amount, currency := currency, date := date_obj,
            description := description, tags := tags }])

/-- `ORDER BY date DESC, id DESC`: `a` may precede `b`. -/
def recentLe (a b : Tx) : Bool :=
  Date.ltb b.date a.date || (b.date = a.date && b.id ≤ a.id)

/-- Row projection of `get_transactions`:
`(id, category, amount, str(date), description)`. -/
def listProj (r : Tx) : Nat × String × ℚ × String × Option String :=
  (r.id, r.category, r.amount, showDate r.date, r.description)

/-- `get_transactions` (`db_utils.py`): the user's rows ordered by date
descending then id descending, truncated to `limit`, projected to
`(id, category, amount, date, description)`. -/
def get_transactions (db : Db) (user_id : Nat) (limit : Nat) :
    List (Nat × String × ℚ × String × Option String) :=
  (((db.filter fun r => r.user_id = user_id).mergeSort recentLe).take limit).map listProj

/-- `WHERE user_id = %s [AND date >= %s]` of `get_summary`. -/
def summaryMatch (user_id : Nat) (start : Option Date) (r : Tx) : Bool :=
  r.user_id = user_id &&
    match start with
    | none => true
    | some s => Date.leb s r.date

/-- `get_summary` (`db_utils.py`): `SELECT category, SUM(amount) …
GROUP BY category`, one pair per distinct category of the matching rows. -/
def get_summary (db : Db) (user_id : Nat) (start : Option Date) :
    List (String × ℚ) :=
  let rows := db.filter (summaryMatch user_id start)
  ((rows.map Tx.category).dedup).map fun c =>
    (c, ((rows.filter fun r => r.category = c).map Tx.amount).sum)

/-- `ORDER BY date` (ascending): `a` may precede `b`. -/
def exportLe (a b : Tx) : Bool :=
  Date.leb a.date b.date

/-- `get_export_data` (`db_utils.py`): the user's rows ordered by date
ascending, projected to `(id, str(date), category, amount, currency,
description)`. -/
def get_export_data (db : Db) (user_id : Nat) : List Tx :=
  (db.filter fun r => r.user_id = user_id).mergeSort exportLe

/-! ## CSV export (`export_cmd`, `bot.py`) -/

/-- Description escaping: `(r[5] or "").replace(chr(34), chr(34)*2)` —
every double quote is doubled. -/
def escapeDesc (s : String) : String :=
  pyReplace s "\"" "\"\""

/-- Rendering of a Python float (`str(r[3])`) whose value is an exact
decimal: integer part, a period, and the minimal run of fractional
digits; integers render with a single trailing zero (`250.0`).  Values
whose denominator is not a power of ten are not exactly representable
floats and are outside the modelled fragment. -/
def showAmount (q : ℚ) : String :=
  let sign := if q < 0 then "-" else ""
  let n := q.num.natAbs
  match (List.range (q.den + 1)).find? fun k => 10 ^ k % q.den = 0 with
  | some 0 => sign ++ Nat.repr (n / q.den) ++ ".0"
  | some (k + 1) =>
    let scaled := n * 10 ^ (k + 1) / q.den
    sign ++ Nat.repr (scaled / 10 ^ (k + 1)) ++ "." ++ padNat (k + 1) (scaled % 10 ^ (k + 1))
  | none => sign ++ Nat.repr n ++ "div" ++ Nat.repr q.den

/-- Python `sep.join(parts)`. -/
def pyJoin (sep : String) : List String → String
  | [] => ""
  | [x] => x
  | x :: y :: xs => x ++ sep ++ pyJoin sep (y :: xs)

/-- The header row of the CSV export. -/
def csvHeader : String :=
  "id,date,category,amount,currency,description"

/-- One CSV data row:
`','.join([str(id), date, category, str(amount), currency, quoted_desc])`,
with only the description field quoted. -/
def formatCsvRow (r : Tx) : String :=
  pyJoin ","
    [Nat.repr r.id, showDate r.date, r.category, showAmount r.amount,
     r.currency, "\"" ++ escapeDesc (r.description.getD "") ++ "\""]

/-- `export_cmd` (`bot.py`): `none` models the "No data to export." reply
(no file produced); otherwise the produced file contents, the header
line followed by one line per exported row, joined with newlines. -/
def export_cmd (db : Db) (user_id : Nat) : Option String :=
  match get_export_data db user_id with
  | [] => none
  | rows => some (pyJoin "\n" (csvHeader :: rows.map formatCsvRow))

/-! ## Interactive amount step (`amt_handler`, `bot.py`) -/

/-- The sanitizer `re.sub(pattern, "", text)` for the pattern matching any
character that is not a digit, a period or a minus sign: every such
character is removed, and every digit, period and minus sign is kept,
wherever it occurs. -/
def sanitizeAmount (s : String) : String :=
  String.mk (s.data.filter fun c => isPyDigit c || c = '.' || c = '-')

/-- Outcome of the amount step: re-prompt (stay in the amount state) or
accept a parsed amount. -/
inductive AmtResult where
  | reprompt
  | accepted (a : ℚ)
deriving DecidableEq

/-- `amt_handler` (`bot.py`): strip the message, sanitize it, parse it
with `float`; a parse failure re-prompts. -/
def amt_handler (text : String) : AmtResult :=
  match pyFloat (sanitizeAmount (pyStrip text)) with
  | none => .reprompt
  | some a => .accepted a

/-! ## Quick-entry parser (`QUICK_RE` and `quick_cmd`, `bot.py`) -/

/-- The groups of a successful `QUICK_RE.match`. -/
structure QuickMatch where
  category : String
  amountStr : String
  rest : String
deriving DecidableEq

/-- `QUICK_RE.match(payload)` for the pattern
`(?P<category>[\w-]+)\s+(?P<amount>[\d,]+(?:\.\d+)?)\s*(?P<rest>.*)`:
a maximal run of word characters and hyphens, at least one whitespace
character, a maximal run of digits and commas optionally followed by a
period and at least one digit, optional whitespace, and the rest of the
line (`.` does not cross a newline).  Each quantifier's maximal-munch
choice is final here because the character classes of adjacent pattern
pieces are disjoint, so regex backtracking cannot produce a different
match. -/
def quickREMatch (payload : String) : Option QuickMatch :=
  let cs := payload.data
  let cat := cs.takeWhile fun c => isPyWord c || c = '-'
  if cat.isEmpty then none else
  let r1 := cs.drop cat.length
  let ws := r1.takeWhile isPySpace
  if ws.isEmpty then none else
  let r2 := r1.drop ws.length
  let amtInt := r2.takeWhile fun c => isPyDigit c || c = ','
  if amtInt.isEmpty then none else
  let r3 := r2.drop amtInt.length
  let (amt, r4) :=
    match r3 with
    | '.' :: r3' =>
      let fr := r3'.takeWhile isPyDigit
      if fr.isEmpty then (amtInt, r3) else (amtInt ++ '.' :: fr, r3'.drop fr.length)
    | _ => (amtInt, r3)
  let r5 := r4.drop (r4.takeWhile isPySpace).length
  some ⟨String.mk cat, String.mk amt, String.mk (r5.takeWhile fun c => c ≠ '\n')⟩

/-- Attempt to match the description pattern at the head of the list:
literal `--desc`, at least one whitespace character, a double quote, at
least one non-quote character (the capture group `[^"]+`), a closing
double quote.  Returns the whole matched fragment and the capture. -/
def descMatchAt (l : List Char) : Option (List Char × List Char) :=
  match dropPrefixL ("--desc").data l with
  | none => none
  | some r1 =>
    let ws := r1.takeWhile isPySpace
    if ws.isEmpty then none else
    match r1.drop ws.length with
    | '"' :: r2 =>
      let inner := r2.takeWhile fun c => c ≠ '"'
      if inner.isEmpty then none else
      match r2.drop inner.length with
      | '"' :: _ => some (("--desc").data ++ ws ++ '"' :: (inner ++ ['"']), inner)
      | _ => none
    | _ => none

/-- `re.search` for the description pattern: the leftmost position where
`descMatchAt` succeeds. -/
def descSearchL : List Char → Option (List Char × List Char)
  | [] => none
  | c :: cs =>
    match descMatchAt (c :: cs) with
    | some m => some m
    | none => descSearchL cs

/-- The data `quick_cmd` passes to the insert operation: the parsed
category, amount and optional description, the residual free text handed
to the fuzzy date parser, and the resulting transaction date. -/
structure QuickSaved where
  category : String
  amount : ℚ
  description : Option String
  dateText : String
  date : Date
deriving DecidableEq

/-- Outcome of `quick_cmd`: the usage reply on grammar mismatch, an
unhandled exception escaping the handler, or a saved transaction. -/
inductive QuickOutcome where
  | usage
  | error
  | saved (s : QuickSaved)
deriving DecidableEq

/-- `quick_cmd` (`bot.py`): drop the leading `/quick`, strip, match
`QUICK_RE` (usage reply on mismatch); `float` the amount group with
commas removed (an unhandled `ValueError` if it is empty); extract and
remove an optional `--desc "…"` fragment (`str.replace` removes every
occurrence of the matched fragment); hand the remainder to the fuzzy
date parser, defaulting to today when it raises; save the transaction. -/
def quick_cmd (today : Date) (text : String) : QuickOutcome :=
  let payload := pyStrip (pyReplaceFirst text "/quick" "")
  match quickREMatch payload with
  | none => .usage
  | some m =>
    match pyFloat (pyReplace m.amountStr "," "") with
    | none => .error
    | some amount =>
      let rest0 := pyStrip m.rest
      let (desc, rest) :=
        match descSearchL rest0.data with
        | none => ((none : Option String), rest0)
        | some (whole, inner) => (some (String.mk inner), pyReplace rest0 (String.mk whole) "")
      let parsed_date := (dateutilParseFuzzy rest).getD today
      .saved ⟨m.category, amount, desc, rest, parsed_date⟩

/-! ## Interactive `/add` conversation (`bot.py`)

The `ConversationHandler` wires `cat_handler`, `amt_handler`,
`date_handler` and `desc_handler` to the four states, with `/cancel` as a
fallback available in every state.  One `step` processes one incoming
update; the per-user `context.user_data` accumulates the pending fields.
Reply texts play no role in any claim and are not carried by the reply
effect. -/

/-- Conversation states: the four collecting states (`CAT`, `AMT`, `DTE`,
`DESC`) and the terminal state (`ConversationHandler.END`). -/
inductive ConvState where
  | awaitCat
  | awaitAmt
  | awaitDate
  | awaitDesc
  | ended
deriving DecidableEq

/-- The pending fields of `context.user_data`. -/
structure UserData where
  category : Option String := none
  amount : Option ℚ := none
  dateStr : Option String := none
deriving DecidableEq

/-- One incoming update: a non-command text message, or `/cancel`. -/
inductive ConvInput where
  | msg (text : String)
  | cancelCmd
deriving DecidableEq

/-- Observable effects of one step: a textual reply, an invocation of the
storage insert operation with the accumulated fields, or an exception
escaping the handler (a missing `user_data` key). -/
inductive Effect where
  | reply
  | insertRow (category : String) (amount : ℚ) (dateStr : String) (description : String)
  | raisedErr
deriving DecidableEq

/-- Whether an effect is an invocation of the insert operation. -/
def Effect.isInsert : Effect → Bool
  | .insertRow _ _ _ _ => true
  | _ => false

/-- One step of the conversation: the handler selected by the current
state and input, following `cat_handler`, `amt_handler`, `date_handler`,
`desc_handler` and `cancel` in `bot.py`. -/
def step (s : ConvState) (ud : UserData) (i : ConvInput) :
    ConvState × UserData × List Effect :=
  match s, i with
  | .ended, _ => (.ended, ud, [])
  | _, .cancelCmd => (.ended, ud, [.reply])
  | .awaitCat, .msg t =>
    (.awaitAmt, { ud with category := some (pyStrip t) }, [.reply])
  | .awaitAmt, .msg t =>
    match amt_handler t with
    | .reprompt => (.awaitAmt, ud, [.reply])
    | .accepted a => (.awaitDate, { ud with amount := some a }, [.reply])
  | .awaitDate, .msg t =>
    match dateutilParseFuzzy (pyStrip t) with
    | none => (.awaitDate, ud, [.reply])
    | some d => (.awaitDesc, { ud with dateStr := some (showDate d) }, [.reply])
  | .awaitDesc, .msg t =>
    match ud.category, ud.amount, ud.dateStr with
    | some c, some a, some ds =>
      (.ended, ud, [.insertRow c a ds (pyStrip t), .reply])
    | _, _, _ => (.awaitDesc, ud, [.raisedErr])

/-- State and pending data after processing a sequence of updates. -/
def runSt (s : ConvState) (ud : UserData) : List ConvInput → ConvState × UserData
  | [] => (s, ud)
  | i :: rest =>
    let r := step s ud i
    runSt r.1 r.2.1 rest

/-- The effects emitted while processing a sequence of updates. -/
def runEffs (s : ConvState) (ud : UserData) : List ConvInput → List Effect
  | [] => []
  | i :: rest =>
    let r := step s ud i
    r.2.2 ++ runEffs r.1 r.2.1 rest

/-- The conversation state entered by `/add` (`add_cmd` returns `CAT`),
with no pending data. -/
def initUD : UserData := {}

/-! ## Supporting lemmas -/

/-- Dropping a single-character prefix pattern. -/
theorem dropPrefixL_single (x c : Char) (cs : List Char) :
    dropPrefixL [x] (c :: cs) = if x = c then some cs else none := by
  by_cases h : x = c <;> simp [dropPrefixL, h]

/-- Python `replace` with a single-character pattern substitutes each
occurrence of that character independently. -/
theorem replaceAllAux_single (x : Char) (r : List Char) :
    ∀ fuel l, l.length ≤ fuel →
      replaceAllAux [x] r fuel l = l.flatMap fun c => if c = x then r else [c] := by
  intro fuel
  induction fuel with
  | zero =>
    intro l hl
    have : l = [] := List.length_eq_zero.mp (Nat.le_zero.mp hl)
    simp [this, replaceAllAux]
  | succ n ih =>
    intro l hl
    match l with
    | [] => simp [replaceAllAux]
    | c :: cs =>
      have hcs : cs.length ≤ n := by simpa using hl
      by_cases h : x = c
      · subst h
        simp [replaceAllAux, dropPrefixL_single, ih cs hcs]
      · simp [replaceAllAux, dropPrefixL_single, h, ih cs hcs, Ne.symm h]

/-- `str.replace(x, r)` maps each character, replacing occurrences of the
single-character pattern `x` by `r`. -/
theorem pyReplace_single (s : String) (x : Char) (r : String) :
    (pyReplace s (String.mk [x]) r).data =
      s.data.flatMap fun c => if c = x then r.data else [c] := by
  have h := replaceAllAux_single x r.data s.data.length s.data le_rfl
  simpa [pyReplace, replaceAllL] using h

/-- Filtering by a predicate that rejects everything `q` accepts ignores a
dropped `q`-prefix. -/
theorem filter_dropWhile_of_disjoint (p q : Char → Bool)
    (hpq : ∀ c, q c = true → p c = false) :
    ∀ l : List Char, (l.dropWhile q).filter p = l.filter p := by
  intro l
  induction l with
  | nil => rfl
  | cons c cs ih =>
    by_cases h : q c
    · simp [List.dropWhile_cons, h, ih, List.filter_cons, hpq c h]
    · simp [List.dropWhile_cons, h]

/-- Stripping whitespace does not change the result of a filter that
rejects whitespace. -/
theorem filter_pyStripL (p : Char → Bool) (hp : ∀ c, isPySpace c = true → p c = false)
    (l : List Char) : (pyStripL l).filter p = l.filter p := by
  unfold pyStripL
  rw [List.filter_reverse, filter_dropWhile_of_disjoint p isPySpace hp,
    List.filter_reverse, List.reverse_reverse,
    filter_dropWhile_of_disjoint p isPySpace hp]

/-- Every id in the table is bounded by `maxId`. -/
theorem le_maxId_of_mem {db : Db} {x : Tx} (hx : x ∈ db) : x.id ≤ maxId db := by
  induction db with
  | nil => cases hx
  | cons a l ih =>
    have : maxId (a :: l) = max a.id (maxId l) := rfl
    rcases List.mem_cons.mp hx with h | h
    · subst h; simp [this]
    · exact le_trans (ih h) (by simp [this])

/-- The `ORDER BY date DESC, id DESC` comparison is total. -/
theorem recentLe_total (a b : Tx) : recentLe a b || recentLe b a := by
  simp only [recentLe, Date.ltb, Date.ext_iff, Bool.or_eq_true, Bool.and_eq_true,
    decide_eq_true_eq, Bool.decide_and, Bool.decide_or]
  omega

/-- The `ORDER BY date DESC, id DESC` comparison is transitive. -/
theorem recentLe_trans (a b c : Tx) :
    recentLe a b → recentLe b c → recentLe a c := by
  simp only [recentLe, Date.ltb, Date.ext_iff, Bool.or_eq_true, Bool.and_eq_true,
    decide_eq_true_eq, Bool.decide_and, Bool.decide_or]
  omega

/-- The `ORDER BY date` (ascending) comparison is total. -/
theorem exportLe_total (a b : Tx) : exportLe a b || exportLe b a := by
  simp only [exportLe, Date.leb, Bool.or_eq_true, Bool.and_eq_true,
    decide_eq_true_eq, Bool.decide_and, Bool.decide_or]
  omega

/-- The `ORDER BY date` (ascending) comparison is transitive. -/
theorem exportLe_trans (a b c : Tx) :
    exportLe a b → exportLe b c → exportLe a c := by
  simp only [exportLe, Date.leb, Bool.or_eq_true, Bool.and_eq_true,
    decide_eq_true_eq, Bool.decide_and, Bool.decide_or]
  omega

/-- A step emits an insert effect only from the description state on a
non-command message. -/
theorem step_insert_only_from_desc (s : ConvState) (ud : UserData) (i : ConvInput)
    (h : ¬ (s = .awaitDesc ∧ i ≠ .cancelCmd)) :
    ((step s ud i).2.2).filter Effect.isInsert = [] := by
  match s, i with
  | .ended, j => cases j <;> rfl
  | .awaitCat, .cancelCmd => rfl
  | .awaitAmt, .cancelCmd => rfl
  | .awaitDate, .cancelCmd => rfl
  | .awaitDesc, .cancelCmd => rfl
  | .awaitCat, .msg t => simp [step, Effect.isInsert]
  | .awaitAmt, .msg t =>
    cases hamt : amt_handler t <;> simp [step, hamt, Effect.isInsert]
  | .awaitDate, .msg t =>
    cases hd : dateutilParseFuzzy (pyStrip t) <;> simp [step, hd, Effect.isInsert]
  | .awaitDesc, .msg t =>
    exact absurd ⟨rfl, by simp⟩ h

/-- Runs in which the description state never receives a non-command
message emit no insert effect (from any start state). -/
theorem runEffs_no_insert_aux :
    ∀ (inputs : List ConvInput) (s : ConvState) (ud : UserData),
      (∀ n, n < inputs.length →
        (runSt s ud (inputs.take n)).1 = .awaitDesc →
        inputs.getD n .cancelCmd = .cancelCmd) →
      (runEffs s ud inputs).filter Effect.isInsert = [] := by
  intro inputs
  induction inputs with
  | nil => intro s ud _; rfl
  | cons i rest ih =>
    intro s ud h
    have h0 : s = .awaitDesc → i = .cancelCmd := by
      intro hs
      have := h 0 (by simp) (by simpa [runSt] using hs)
      simpa using this
    have hstep : ((step s ud i).2.2).filter Effect.isInsert = [] := by
      apply step_insert_only_from_desc
      rintro ⟨hs, hi⟩
      exact hi (h0 hs)
    have hrest : ((runEffs (step s ud i).1 (step s ud i).2.1 rest).filter
        Effect.isInsert) = [] := by
      apply ih
      intro n hn hdesc
      have := h (n + 1) (by simpa using Nat.succ_lt_succ hn) (by simpa [runSt] using hdesc)
      simpa using this
    simp [runEffs, List.filter_append, hstep, hrest]

/-- Strings with equal character data are equal. -/
theorem stringDataEq {a b : String} (h : a.data = b.data) : a = b := by
  cases a; cases b; exact congrArg String.mk h

/-- Characters kept by the amount sanitizer are never whitespace. -/
theorem amtKeep_false_of_space (c : Char) (hc : isPySpace c = true) :
    (isPyDigit c || c = '.' || c = '-') = false := by
  simp only [isPySpace, Bool.or_eq_true, decide_eq_true_eq] at hc
  rcases hc with ((((h | h) | h) | h) | h) | h <;> subst h <;> decide

/-- String append is associative. -/
theorem stringAppend_assoc (a b c : String) : (a ++ b) ++ c = a ++ (b ++ c) := by
  apply stringDataEq
  show (a.data ++ b.data) ++ c.data = a.data ++ (b.data ++ c.data)
  exact List.append_assoc a.data b.data c.data

/-- The description escaping doubles exactly the double quotes, character
by character. -/
theorem escapeDesc_data (d : String) :
    (escapeDesc d).data = d.data.flatMap fun ch => if ch = '"' then ['"', '"'] else [ch] := by
  have h := replaceAllAux_single '"' ['"', '"'] d.data.length d.data le_rfl
  simpa [escapeDesc, pyReplace, replaceAllL] using h

/-- Unfolding of the `ORDER BY date DESC, id DESC` comparison. -/
theorem recentLe_imp (a b : Tx) (h : recentLe a b = true) :
    Date.ltb b.date a.date = true ∨ (b.date = a.date ∧ b.id ≤ a.id) := by
  simpa [recentLe, Bool.or_eq_true, Bool.and_eq_true, decide_eq_true_eq] using h

/-- Python `replace(",", "")` deletes exactly the commas. -/
theorem pyReplace_comma (s : String) :
    (pyReplace s "," "").data = s.data.filter fun c => !(c = ',') := by
  have h := replaceAllAux_single ',' [] s.data.length s.data le_rfl
  have h2 : (pyReplace s "," "").data =
      s.data.flatMap fun c => if c = ',' then [] else [c] := by
    simpa [pyReplace, replaceAllL] using h
  rw [h2]
  induction s.data with
  | nil => rfl
  | cons c cs ih => by_cases hc : c = ',' <;> simp [hc, ih]

/-! ## The claims -/

/-- C1, counterexample.  The claim says an insert whose `dateText` cannot
be parsed as a date fails with a `ValidationError` and persists no row.
On the concrete unparsable date text `"not-a-date"` the storage insert
does not fail: it persists one row (with the fallback date). -/
theorem C1_counterexample :
    pyStrptimeDate "not-a-date" = none ∧
    (insert_tx [] 7 "food" 250 "not-a-date" none none "INR" ⟨2026, 10, 12⟩).2 =
      [⟨1, 7, "food", 250, "INR", ⟨2026, 10, 12⟩, none, none⟩] := by
  exact ⟨rfl, by decide⟩

/-- C1, amended.  When `dateText` does not parse as `YYYY-MM-DD`, the
storage insert does not fail: it silently substitutes the current date
and persists the row normally, returning the next id. -/
theorem C1_insert_unparsable_date_defaults_to_today
    (db : Db) (u : Nat) (c : String) (a : ℚ) (ds : String) (d tg : Option String)
    (cur : String) (today : Date) (h : pyStrptimeDate ds = none) :
    insert_tx db u c a ds d tg cur today =
      (maxId db + 1,
       db ++ [{ id := maxId db + 1, user_id := u, category := c, amount := a,
                currency := cur, date := today, description := d, tags := tg }]) := by
  simp [insert_tx, h]

/-- C1, witness: the amended theorem at the concrete unparsable date text
`"not-a-date"` on the empty table. -/
theorem C1_witness :
    pyStrptimeDate "not-a-date" = none ∧
    insert_tx [] 7 "food" 250 "not-a-date" none none "INR" ⟨2026, 10, 12⟩ =
      (1, [⟨1, 7, "food", 250, "INR", ⟨2026, 10, 12⟩, none, none⟩]) :=
  ⟨rfl, C1_insert_unparsable_date_defaults_to_today [] 7 "food" 250 "not-a-date"
    none none "INR" ⟨2026, 10, 12⟩ rfl⟩

/-- C2, counterexample.  The claim says the interactive input `"1,200"`
fails to parse and causes a re-prompt.  In fact the sanitizer strips the
comma and the input is accepted as the number 1200. -/
theorem C2_counterexample :
    amt_handler "1,200" = .accepted 1200 ∧ amt_handler "1,200" ≠ .reprompt := by
  exact ⟨by decide, by decide⟩

/-- C2, amended.  The interactive amount coercion keeps only digits,
periods and minus signs, so in particular commas are stripped before
numeric parsing: the amount step behaves identically on an input with
its commas deleted, and the interactive input `"1,200"` is accepted as
the number 1200 (no re-prompt). -/
theorem C2_amount_comma_stripped_and_accepted :
    (∀ text : String, amt_handler text = amt_handler (pyReplace text "," "")) ∧
    amt_handler "1,200" = .accepted 1200 ∧ amt_handler "1,200" ≠ .reprompt := by
  refine ⟨?_, by decide, by decide⟩
  intro text
  have hsan : ∀ u : String, (sanitizeAmount (pyStrip u)).data =
      u.data.filter fun c => isPyDigit c || c = '.' || c = '-' := by
    intro u
    exact filter_pyStripL _ amtKeep_false_of_space u.data
  have hkey : sanitizeAmount (pyStrip text) =
      sanitizeAmount (pyStrip (pyReplace text "," "")) := by
    apply stringDataEq
    rw [hsan, hsan, pyReplace_comma, List.filter_filter]
    congr 1
    funext c
    by_cases hc : c = ','
    · subst hc; decide
    · simp [hc]
  unfold amt_handler
  rw [hkey]

/-- C3, counterexample.  The claim says the quick input parses with
yesterday's date.  With today fixed to 2026-10-12 the parsed transaction
carries today's date 2026-10-12, not yesterday's 2026-10-11: the word
"yesterday" contains no token the fuzzy date parser recognizes, the
parse raises, and the handler falls back to today. -/
theorem C3_counterexample :
    quick_cmd ⟨2026, 10, 12⟩ "/quick food 250 --desc \"lunch\" yesterday" =
      .saved ⟨"food", 250, some "lunch", " yesterday", ⟨2026, 10, 12⟩⟩ ∧
    predDate ⟨2026, 10, 12⟩ = ⟨2026, 10, 11⟩ ∧
    (⟨2026, 10, 12⟩ : Date) ≠ ⟨2026, 10, 11⟩ := by
  exact ⟨by decide, by decide, by decide⟩

/-- C3, amended.  The quick-entry parser on
`food 250 --desc "lunch" yesterday` produces category `"food"`, amount
250, description `"lunch"`, and today's date (not yesterday's): the
residual text `" yesterday"` is handed to the fuzzy date parser, which
cannot extract a date from it, and the command defaults to today. -/
theorem C3_quick_lunch_parses_with_today (today : Date) :
    quick_cmd today "/quick food 250 --desc \"lunch\" yesterday" =
      .saved ⟨"food", 250, some "lunch", " yesterday", today⟩ := rfl

/-- C4.  The insert operation assigns the new row the id
`max(existing id) + 1`, the maximum ranging over the whole table (all
users), hence 1 on the empty table; it returns the assigned id, the id
is strictly greater than every existing id, and the row is appended with
exactly the assigned id and the normalized fields. -/
theorem C4_insert_assigns_global_max_plus_one
    (db : Db) (u : Nat) (c : String) (a : ℚ) (ds : String) (d tg : Option String)
    (cur : String) (today : Date) :
    (insert_tx db u c a ds d tg cur today).1 = maxId db + 1 ∧
    (db = [] → (insert_tx db u c a ds d tg cur today).1 = 1) ∧
    (∀ x ∈ db, x.id < (insert_tx db u c a ds d tg cur today).1) ∧
    (insert_tx db u c a ds d tg cur today).2 =
      db ++ [{ id := maxId db + 1, user_id := u, category := c, amount := a,
               currency := cur, date := (pyStrptimeDate ds).getD today,
               description := d, tags := tg }] := by
  refine ⟨rfl, ?_, ?_, rfl⟩
  · intro h; subst h; rfl
  · intro x hx
    exact Nat.lt_succ_of_le (le_maxId_of_mem hx)

/-- C5.  For every table state, user and limit, `get_transactions` returns
the user's rows (and only those, projected onto
`(id, category, amount, date, description)`), ordered by date descending
with ties broken by id descending, truncated to the limit: its length is
the minimum of the limit and the user's row count, the rows it returns
dominate every row it leaves out under the same order, and when the user
has no rows the result is the empty list (the operation always returns a
list, never a null value). -/
theorem C5_list_recent_ordered_truncated (db : Db) (u limit : Nat) :
    ∃ rows : List Tx,
      get_transactions db u limit = rows.map listProj ∧
      rows.length = min limit (db.filter fun r => r.user_id = u).length ∧
      (∀ r ∈ rows, r ∈ db ∧ r.user_id = u) ∧
      rows.Pairwise (fun a b => Date.ltb b.date a.date = true ∨
        (b.date = a.date ∧ b.id ≤ a.id)) ∧
      (∃ rest : List Tx,
        (db.filter fun r => r.user_id = u).Perm (rows ++ rest) ∧
        ∀ a ∈ rows, ∀ b ∈ rest, recentLe a b = true) ∧
      ((db.filter fun r => r.user_id = u) = [] → get_transactions db u limit = []) := by
  have hperm : ((db.filter fun r => r.user_id = u).mergeSort recentLe).Perm
      (db.filter fun r => r.user_id = u) := List.mergeSort_perm _ recentLe
  have hsorted : ((db.filter fun r => r.user_id = u).mergeSort recentLe).Pairwise
      (fun a b => recentLe a b = true) :=
    @List.sorted_mergeSort _ recentLe recentLe_trans recentLe_total _
  refine ⟨((db.filter fun r => r.user_id = u).mergeSort recentLe).take limit,
    ?_, ?_, ?_, ?_, ⟨((db.filter fun r => r.user_id = u).mergeSort recentLe).drop limit,
      ?_, ?_⟩, ?_⟩
  · rfl
  · rw [List.length_take, hperm.length_eq]
  · intro r hr
    have hmem : r ∈ (db.filter fun r => r.user_id = u) :=
      hperm.mem_iff.mp (List.mem_of_mem_take hr)
    have := List.mem_filter.mp hmem
    exact ⟨this.1, by simpa using this.2⟩
  · exact ((hsorted.sublist (List.take_sublist _ _)).imp fun {a b} h => recentLe_imp a b h)
  · rw [List.take_append_drop]
    exact hperm.symm
  · intro a ha b hb
    have h2 := hsorted
    rw [← List.take_append_drop limit
      ((db.filter fun r => r.user_id = u).mergeSort recentLe)] at h2
    exact (List.pairwise_append.mp h2).2.2 a ha b hb
  · intro h
    have : (db.filter fun r => r.user_id = u).mergeSort recentLe = [] :=
      List.Perm.eq_nil (h ▸ hperm)
    simp [get_transactions, this]

/-- C6.  A pair `(c, t)` is in the summary exactly when the user has at
least one row of category `c` matching the date bound (`startDate` is an
inclusive lower bound when given, and no constraint when omitted — see
`summaryMatch`) and `t` is the sum of the amounts of all such rows; in
particular two inserts of the same category for a user, starting from an
empty table, summarize to that category with exactly the sum of the two
amounts. -/
theorem C6_summary_groups_and_sums :
    (∀ (db : Db) (u : Nat) (start : Option Date) (c : String) (t : ℚ),
      (c, t) ∈ get_summary db u start ↔
        ((∃ r ∈ db, summaryMatch u start r = true ∧ r.category = c) ∧
         t = (((db.filter (summaryMatch u start)).filter fun r =>
            r.category = c).map Tx.amount).sum)) ∧
    (∀ (u : Nat) (a₁ a₂ : ℚ) (today : Date),
      get_summary
        ((insert_tx ((insert_tx [] u "food" a₁ "2025-01-10" none none "INR" today).2)
          u "food" a₂ "2025-01-11" none none "INR" today).2) u none =
        [("food", a₁ + a₂)]) := by
  constructor
  · intro db u start c t
    simp only [get_summary, List.mem_map, List.mem_dedup, List.mem_filter, Prod.mk.injEq]
    constructor
    · rintro ⟨c', ⟨⟨r, ⟨⟨hrdb, hrm⟩, hrc⟩⟩, hc, ht⟩⟩
      subst hc
      exact ⟨⟨r, hrdb, hrm, hrc⟩, ht.symm⟩
    · rintro ⟨⟨r, hrdb, hrm, hrc⟩, ht⟩
      exact ⟨c, ⟨⟨r, ⟨⟨hrdb, hrm⟩, hrc⟩⟩, rfl, ht.symm⟩⟩
  · intro u a₁ a₂ today
    simp [insert_tx, get_summary, summaryMatch, maxId, List.dedup_cons_of_mem,
      List.filter_cons, List.dedup]

/-- C7.  The CSV export for a user with at least one transaction is the
header line exactly `id,date,category,amount,currency,description`
followed by one line per transaction of the user, in date-ascending
order; in every data row only the description field is wrapped in double
quotes, with internal double quotes doubled character by character, and
the other five fields are joined bare.  (A user with no transactions
produces no file at all.) -/
theorem C7_csv_export_format (db : Db) (u : Nat) :
    (export_cmd db u = none ↔ (db.filter fun r => r.user_id = u) = []) ∧
    (∀ d : String, (escapeDesc d).data =
      d.data.flatMap fun ch => if ch = '"' then ['"', '"'] else [ch]) ∧
    (∀ s, export_cmd db u = some s →
      ∃ rows : List Tx,
        s = pyJoin "\n" (csvHeader :: rows.map formatCsvRow) ∧
        (∃ t : String, s = csvHeader ++ "\n" ++ t) ∧
        rows ≠ [] ∧
        rows.Perm (db.filter fun r => r.user_id = u) ∧
        rows.Pairwise (fun a b => Date.leb a.date b.date = true) ∧
        (∀ r ∈ rows, formatCsvRow r =
          Nat.repr r.id ++ "," ++ showDate r.date ++ "," ++ r.category ++ "," ++
          showAmount r.amount ++ "," ++ r.currency ++ "," ++
          ("\"" ++ escapeDesc (r.description.getD "") ++ "\""))) := by
  have hperm : (get_export_data db u).Perm (db.filter fun r => r.user_id = u) :=
    List.mergeSort_perm _ exportLe
  have hsorted : (get_export_data db u).Pairwise (fun a b => exportLe a b = true) :=
    @List.sorted_mergeSort _ exportLe exportLe_trans exportLe_total _
  refine ⟨?_, escapeDesc_data, ?_⟩
  · cases hge : get_export_data db u with
    | nil =>
      have hf : (db.filter fun r => r.user_id = u) = [] := by
        have hp := hperm.symm
        rw [hge] at hp
        exact List.Perm.eq_nil hp
      simp [export_cmd, hge, hf]
    | cons r0 rs =>
      have hf : (db.filter fun r => r.user_id = u) ≠ [] := by
        intro h
        rw [hge, h] at hperm
        exact List.noConfusion (List.Perm.eq_nil hperm)
      simp [export_cmd, hge, hf]
  · intro s hs
    cases hge : get_export_data db u with
    | nil => rw [export_cmd, hge] at hs; cases hs
    | cons r0 rs =>
      rw [export_cmd, hge] at hs
      have hseq : s = pyJoin "\n" (csvHeader :: (r0 :: rs).map formatCsvRow) :=
        (Option.some.injEq _ _ ▸ hs).symm
      refine ⟨r0 :: rs, hseq, ⟨pyJoin "\n" ((r0 :: rs).map formatCsvRow), ?_⟩,
        by simp, hge ▸ hperm, ?_, ?_⟩
      · rw [hseq]
        rfl
      · have := hge ▸ hsorted
        exact this.imp fun {a b} h => by simpa [exportLe] using h
      · intro r _
        simp [formatCsvRow, pyJoin, stringAppend_assoc]

/-- C8.  In every run of the interactive conversation from its start in
which the description state never processes a non-command message — in
particular every run cancelled at a non-terminal state — the storage
insert operation is never invoked: zero rows are persisted. -/
theorem C8_cancel_midflow_persists_nothing
    (inputs : List ConvInput)
    (h : ∀ n, n < inputs.length →
      (runSt .awaitCat initUD (inputs.take n)).1 = .awaitDesc →
      inputs.getD n .cancelCmd = .cancelCmd) :
    (runEffs .awaitCat initUD inputs).filter Effect.isInsert = [] :=
  runEffs_no_insert_aux inputs .awaitCat initUD h

/-- C8, witness: the concrete run category "petrol", amount "500",
then `/cancel`, which reaches the date state and cancels there. -/
theorem C8_witness :
    (∀ n, n < ([ConvInput.msg "petrol", .msg "500", .cancelCmd] : List ConvInput).length →
      (runSt .awaitCat initUD
        (([ConvInput.msg "petrol", .msg "500", .cancelCmd] : List ConvInput).take n)).1 =
        .awaitDesc →
      ([ConvInput.msg "petrol", .msg "500", .cancelCmd] : List ConvInput).getD n
        .cancelCmd = .cancelCmd) ∧
    (runEffs .awaitCat initUD
      [ConvInput.msg "petrol", .msg "500", .cancelCmd]).filter Effect.isInsert = [] :=
  ⟨by decide, C8_cancel_midflow_persists_nothing
    [ConvInput.msg "petrol", .msg "500", .cancelCmd] (by decide)⟩

/-- C9.  The input `food ,, stuff` matches the quick-entry grammar (the
amount group `[\d,]+` accepts a run of commas), so no usage message is
sent; stripping the commas leaves the empty string, and `float("")`
raises an unhandled `ValueError` — the command neither replies with the
usage message nor saves a transaction. -/
theorem C9_quick_comma_amount_unhandled_error (today : Date) :
    quickREMatch "food ,, stuff" = some ⟨"food", ",,", "stuff"⟩ ∧
    quick_cmd today "/quick food ,, stuff" = .error :=
  ⟨rfl, rfl⟩

/-- C10, counterexample.  The claim quantifies over every input
containing the fragment `--desc ""`; the input
`food 10 --desc "" --desc "hi"` contains that fragment, yet a
description is extracted (`"hi"`, from the second fragment), so the
parser does not leave the description empty on every such input. -/
theorem C10_counterexample :
    ("food 10 --desc \"\" --desc \"hi\"" : String) =
      "food 10 " ++ "--desc \"\"" ++ " --desc \"hi\"" ∧
    quick_cmd ⟨2026, 10, 12⟩ "/quick food 10 --desc \"\" --desc \"hi\"" =
      .saved ⟨"food", 10, some "hi", "--desc \"\" ", ⟨2026, 10, 12⟩⟩ ∧
    (some "hi" : Option String) ≠ none := by
  exact ⟨by decide, by decide, by decide⟩

/-- C10, amended.  When the free text after the amount contains no
`--desc` fragment with a nonempty quoted string (the extraction pattern
requires at least one character inside the quotes), no description is
extracted and the text — any `--desc ""` fragment included — is passed
unchanged to the fuzzy date parser; in particular
`food 250 --desc "" tomorrow` saves with no description, the full
residual text `--desc "" tomorrow` as date text, and today's date. -/
theorem C10_quick_empty_desc_not_extracted :
    (∀ (today : Date) (text : String) (m : QuickMatch) (a : ℚ),
      quickREMatch (pyStrip (pyReplaceFirst text "/quick" "")) = some m →
      pyFloat (pyReplace m.amountStr "," "") = some a →
      descSearchL (pyStrip m.rest).data = none →
      quick_cmd today text =
        .saved ⟨m.category, a, none, pyStrip m.rest,
          (dateutilParseFuzzy (pyStrip m.rest)).getD today⟩) ∧
    (∀ today : Date,
      quick_cmd today "/quick food 250 --desc \"\" tomorrow" =
        .saved ⟨"food", 250, none, "--desc \"\" tomorrow", today⟩) := by
  constructor
  · intro today text m a hm ha hd
    simp only [quick_cmd, hm, ha, hd]
  · intro today
    rfl

end Jarviz
